import Mathlib

/-!
Verification development for the daveenci-ai-avatar repository.

We shallowly embed the review-and-publish workflow of the backend:
the blob-storage adapter (`src/server/lib/github.js`, class
`GitHubImageStorage`) and the image routes
(`src/server/routes/images.js`: generate, history, like, dislike,
download, delete).  JavaScript string operations are modelled over
`List Char` with the exact first-occurrence / per-character semantics
of the source (`String.prototype.replace` with a string pattern
replaces only the first occurrence; `split` splits on every
occurrence; `includes` is a substring test).
-/

namespace AvatarSpec

/-! ## JavaScript string primitives -/

/-- JS `str.split(c)` on a list of characters: splits at every occurrence
of `c`; the empty string splits to `[[]]`. -/
def splitChar (c : Char) : List Char → List (List Char)
  | [] => [[]]
  | x :: xs =>
    if x = c then [] :: splitChar c xs
    else
      match splitChar c xs with
      | [] => [[x]]
      | y :: ys => (x :: y) :: ys

/-- JS `arr.join(c)`: interleave the separator character between parts. -/
def joinChar (c : Char) : List (List Char) → List Char
  | [] => []
  | [x] => x
  | x :: y :: ys => x ++ c :: joinChar c (y :: ys)

/-- JS `str.replace(pat, repl)` with a string pattern: replace only the
first occurrence of `pat`, scanning from the left; if `pat` does not
occur, return the string unchanged. -/
def replaceFirstList (pat repl : List Char) : List Char → List Char
  | [] => if pat.isPrefixOf ([] : List Char) then repl else []
  | s@(x :: xs) =>
    if pat.isPrefixOf s then repl ++ s.drop pat.length
    else x :: replaceFirstList pat repl xs

/-- JS `str.startsWith(pre)`. -/
def jsStartsWith (s pre : String) : Bool :=
  pre.data.isPrefixOf s.data

/-- JS `str.replace(pat, repl)` (string pattern: first occurrence only). -/
def jsReplaceFirst (s pat repl : String) : String :=
  ⟨replaceFirstList pat.data repl.data s.data⟩

/-- JS `str.split(c)` for a one-character separator. -/
def jsSplit (s : String) (c : Char) : List String :=
  (splitChar c s.data).map String.mk

/-- JS `arr.join(c)` for a one-character separator. -/
def jsJoin (c : Char) (parts : List String) : String :=
  ⟨joinChar c (parts.map String.data)⟩

/-- Substring scan: does `sub` match at some position of the list? -/
def containsSub (sub : List Char) : List Char → Bool
  | [] => sub.isPrefixOf ([] : List Char)
  | s@(_ :: xs) => sub.isPrefixOf s || containsSub sub xs

/-- JS `str.includes(sub)`: substring test. -/
def jsIncludes (s sub : String) : Bool :=
  containsSub sub.data s.data

/-- JS per-character map over a string (the model of a global
single-character regex replace and of `toLowerCase`). -/
def jsMapChars (f : Char → Char) (s : String) : String :=
  ⟨s.data.map f⟩

/-- JS `str.toLowerCase()`. -/
def jsToLower (s : String) : String :=
  jsMapChars Char.toLower s

/-- The lifecycle marker prepended to a staged image's URL field. -/
def PENDING : String := "PENDING_REVIEW:"

/-- The raw-content host prefix of a durable blob URL. -/
def RAWPREFIX : String := "https://raw.githubusercontent.com/"

/-! ## Blob-storage adapter (`GitHubImageStorage`, src/server/lib/github.js)

The GitHub content API is modelled as a set of file paths present in the
repository (`Repo`).  Content bytes and commit SHAs play no role in the
claims, so `getFileInfo` reports only existence. -/

/-- The set of file paths currently present in the blob repository. -/
abbrev Repo := List String

/-- `getFileInfo(path)` (existence part): does a file exist at `path`? -/
def getFileInfo (repo : Repo) (path : String) : Bool :=
  repo.contains path

/-- Storage coordinates: `this.owner`, `this.repo`, `this.branch`. -/
structure StorageConfig where
  owner : String
  repo : String
  branch : String
deriving Repr, DecidableEq

/-- The `GitHubImageStorage` constructor: parse the `owner/repo` string
(`repoPath.split('/')`, destructuring the first two parts), reject a
missing or empty owner or repo, and fix the branch to `main`. -/
def mkStorage (repoPath : String) : Option StorageConfig :=
  match jsSplit repoPath '/' with
  | owner :: repo :: _ =>
    if owner = "" ∨ repo = "" then none else some ⟨owner, repo, "main"⟩
  | _ => none

/-- `safeAvatarName`: `avatarName.toLowerCase().replace(/[^a-z0-9]/g, '-')`
— lowercase, then every character outside `a`–`z`, `0`–`9` becomes `-`. -/
def safeAvatarName (avatarName : String) : String :=
  jsMapChars
    (fun ch => if ('a' ≤ ch ∧ ch ≤ 'z') ∨ ('0' ≤ ch ∧ ch ≤ '9') then ch else '-')
    (jsToLower avatarName)

/-- `generateFilename(prompt, avatarName)`.  The nondeterministic inputs
are passed explicitly: `ts` models `new Date().toISOString()`, `md5hex`
models the hex MD5 digest function, `rand` models
`crypto.randomBytes(4).toString('hex')`.  The default extension is
`jpg`. -/
def generateFilename (md5hex : String → String) (ts rand : String)
    (prompt avatarName : String) : String :=
  let timestamp := jsMapChars (fun ch => if ch = ':' ∨ ch = '.' then '-' else ch) ts
  let promptHash := (md5hex prompt).take 8
  timestamp ++ "_" ++ safeAvatarName avatarName ++ "_" ++ promptHash
    ++ "_" ++ rand ++ "." ++ "jpg"

/-- The repository-internal path `uploadImage` writes:
`avatars/<safeAvatarName>/<filename>`. -/
def uploadPath (md5hex : String → String) (ts rand : String)
    (prompt avatarName : String) : String :=
  "avatars/" ++ safeAvatarName avatarName ++ "/"
    ++ generateFilename md5hex ts rand prompt avatarName

/-- The public raw-content URL `uploadImage` returns:
`https://raw.githubusercontent.com/<owner>/<repo>/<branch>/<path>`. -/
def rawUrl (cfg : StorageConfig) (path : String) : String :=
  RAWPREFIX ++ cfg.owner ++ "/" ++ cfg.repo
    ++ "/" ++ cfg.branch ++ "/" ++ path

/-- `uploadImage(imageUrl, prompt, avatarName)` on the success path:
write the blob at the derived path and return the raw-content URL. -/
def uploadImage (cfg : StorageConfig) (md5hex : String → String)
    (ts rand : String) (repo : Repo) (prompt avatarName : String) :
    String × Repo :=
  let path := uploadPath md5hex ts rand prompt avatarName
  (rawUrl cfg path, path :: repo)

/-- `deleteImage`'s path derivation: strip the raw-content host prefix
(first occurrence, as JS `replace` does), split on `/`, drop the three
`owner/repo/branch` segments, and re-join the rest. -/
def derivePath (githubUrl : String) : String :=
  let stripped := jsReplaceFirst githubUrl RAWPREFIX ""
  jsJoin '/' ((jsSplit stripped '/').drop 3)

/-- `deleteImage(githubUrl)`: derive the internal path, check existence,
treat "not found" as success, otherwise delete the file.  Returns the
`{ success, message }` pair together with the new repository state. -/
def deleteImage (repo : Repo) (githubUrl : String) :
    (Bool × String) × Repo :=
  let path := derivePath githubUrl
  if getFileInfo repo path then
    ((true, "Image deleted successfully"), repo.filter (fun p => p ≠ path))
  else
    ((true, "File not found (already deleted)"), repo)

/-- `uploadImageWithRetry`: an attempt first re-reads the file info
(content hash) and then issues the create-or-update write.  Conflicts
are errors whose message contains `but expected`; everything else is a
non-conflict error. -/
inductive AttemptOutcome where
  | success
  | conflict
  | other
deriving Repr, DecidableEq

/-- Observable events of one `uploadImageWithRetry` run. -/
inductive GhEvent where
  | readInfo (attempt : Nat)
  | tryWrite (attempt : Nat)
  | sleep (ms : Nat)
deriving Repr, DecidableEq

/-- The retry loop of `uploadImageWithRetry`, from loop counter
`attempt` up to `maxRetries`, driven by the per-attempt outcome of the
create-or-update call.  Each iteration reads the current file info and
tries the write; on success the loop returns; on the final attempt the
error is rethrown; a conflict (`but expected` in the message) sleeps
`attempt * 1000` milliseconds and continues; any other error is
rethrown immediately.  Returns the event trace and the result. -/
def retryGo (outcomes : Nat → AttemptOutcome) (maxRetries attempt : Nat) :
    List GhEvent × Except AttemptOutcome Unit :=
  if _h : maxRetries < attempt then ([], .ok ())
  else
    let ev := [GhEvent.readInfo attempt, GhEvent.tryWrite attempt]
    match outcomes attempt with
    | .success => (ev, .ok ())
    | .conflict =>
      if attempt = maxRetries then (ev, .error .conflict)
      else
        let r := retryGo outcomes maxRetries (attempt + 1)
        (ev ++ GhEvent.sleep (attempt * 1000) :: r.1, r.2)
    | .other => (ev, .error .other)
  termination_by maxRetries + 1 - attempt
  decreasing_by omega

/-- `uploadImageWithRetry(path, content, message, maxRetries = 3)`:
the loop starts at attempt 1. -/
def uploadImageWithRetry (outcomes : Nat → AttemptOutcome)
    (maxRetries : Nat := 3) : List GhEvent × Except AttemptOutcome Unit :=
  retryGo outcomes maxRetries 1

/-! ## Data model and image routes (src/server/routes/images.js) -/

/-- One `avatars` row (the fields the image routes read). -/
structure Avatar where
  id : Nat
  fullName : String
  triggerWord : String
deriving Repr, DecidableEq

/-- One `avatars_generated` row. -/
structure ImageRecord where
  id : Nat
  avatarId : Nat
  prompt : String
  githubImageUrl : String
deriving Repr, DecidableEq

/-- The relational state the image routes touch.  `nextId` models the
autoincrement id sequence: every existing row id is below it and each
`create` consumes it. -/
structure DB where
  images : List ImageRecord
  avatars : List Avatar
  nextId : Nat
deriving Repr, DecidableEq

/-- A record is staged (pending review) when its URL field starts with
the `PENDING_REVIEW:` marker. -/
def Staged (img : ImageRecord) : Bool :=
  jsStartsWith img.githubImageUrl PENDING

/-- Strip the pending marker: `url.replace('PENDING_REVIEW:', '')`. -/
def stripPending (url : String) : String :=
  jsReplaceFirst url PENDING ""

/-- `prisma.avatarGenerated.findFirst({ where: { id, avatarId: { in:
avatarIds } } })`: the first record with the requested id whose avatar
is accessible to the requesting user. -/
def findImage (db : DB) (avatarIds : List Nat) (imageId : Nat) :
    Option ImageRecord :=
  db.images.find? (fun img => img.id = imageId ∧ avatarIds.contains img.avatarId)

/-- `prisma.avatarGenerated.update({ where: { id }, data: {
githubImageUrl } })`. -/
def updateImageUrl (db : DB) (imageId : Nat) (url : String) : DB :=
  { db with
    images := db.images.map
      (fun img => if img.id = imageId then { img with githubImageUrl := url } else img) }

/-- `prisma.avatarGenerated.delete({ where: { id } })`. -/
def removeImage (db : DB) (imageId : Nat) : DB :=
  { db with images := db.images.filter (fun img => img.id ≠ imageId) }

/-- `image.avatar.fullName` through the `include: { avatar }` join. -/
def avatarFullName (db : DB) (avatarId : Nat) : String :=
  ((db.avatars.find? (fun a => a.id = avatarId)).map Avatar.fullName).getD ""

/-- HTTP status and message of a route response. -/
structure RouteStatus where
  status : Nat
  message : String
deriving Repr, DecidableEq

/-- Result of `POST /api/images/:imageId/like`. -/
structure LikeResult where
  res : RouteStatus
  db : DB
deriving Repr, DecidableEq

/-- `POST /api/images/:imageId/like`: 404 when the record is not found
or not accessible; 400 `Image is not pending review` when the URL field
lacks the marker; otherwise strip the marker (no new upload — the blob
is already durably stored from the generate step) and save. -/
def likeRoute (db : DB) (avatarIds : List Nat) (imageId : Nat) : LikeResult :=
  match findImage db avatarIds imageId with
  | none => ⟨⟨404, "Image not found"⟩, db⟩
  | some img =>
    if ¬ Staged img then ⟨⟨400, "Image is not pending review"⟩, db⟩
    else
      let githubUrl := stripPending img.githubImageUrl
      ⟨⟨200, "Image approved successfully"⟩, updateImageUrl db imageId githubUrl⟩

/-- Result of `POST /api/images/:imageId/dislike`. -/
structure DislikeResult where
  res : RouteStatus
  db : DB
  repo : Repo
deriving Repr, DecidableEq

/-- `POST /api/images/:imageId/dislike`: 404 when not found; 400 when
not pending review; otherwise delete the blob (when the wrapped URL is
a raw-content URL) and then delete the database record. -/
def dislikeRoute (db : DB) (repo : Repo) (avatarIds : List Nat)
    (imageId : Nat) : DislikeResult :=
  match findImage db avatarIds imageId with
  | none => ⟨⟨404, "Image not found"⟩, db, repo⟩
  | some img =>
    if ¬ Staged img then ⟨⟨400, "Image is not pending review"⟩, db, repo⟩
    else
      let githubUrl := stripPending img.githubImageUrl
      let repo' := if jsStartsWith githubUrl RAWPREFIX then (deleteImage repo githubUrl).2 else repo
      ⟨⟨200, "Image rejected and deleted successfully"⟩, removeImage db imageId, repo'⟩

/-- Result of `POST /api/images/:imageId/download`. -/
structure DownloadResult where
  res : RouteStatus
  downloadUrl : Option String
  filename : Option String
  db : DB
deriving Repr, DecidableEq

/-- `POST /api/images/:imageId/download`: 404 when not found.  When the
record is pending review, strip the marker (same update as like) and
return the resolved URL; when it is not, answer with the stored URL
unchanged.  Either way the response is 200 with a
`<fullName>-<id>.jpg` filename. -/
def downloadRoute (db : DB) (avatarIds : List Nat) (imageId : Nat) :
    DownloadResult :=
  match findImage db avatarIds imageId with
  | none => ⟨⟨404, "Image not found"⟩, none, none, db⟩
  | some img =>
    let filename := avatarFullName db img.avatarId ++ "-" ++ toString img.id ++ ".jpg"
    if Staged img then
      let githubUrl := stripPending img.githubImageUrl
      ⟨⟨200, "Image ready for download"⟩, some githubUrl, some filename,
        updateImageUrl db imageId githubUrl⟩
    else
      ⟨⟨200, "Image ready for download"⟩, some img.githubImageUrl, some filename, db⟩

/-- Result of `DELETE /api/images/:imageId`. -/
structure DeleteResult where
  res : RouteStatus
  db : DB
  repo : Repo
  githubDeleteCalled : Bool
deriving Repr, DecidableEq

/-- `DELETE /api/images/:imageId`: 404 when not found; otherwise delete
the blob only when the URL field itself starts with the raw-content
prefix and does not start with the pending marker, then delete the
database record.  (`deleteAvatarFolderIfEmpty` deletes no files, so the
repository state is not affected by the cleanup step.) -/
def deleteRoute (db : DB) (repo : Repo) (avatarIds : List Nat)
    (imageId : Nat) : DeleteResult :=
  match findImage db avatarIds imageId with
  | none => ⟨⟨404, "Image not found"⟩, db, repo, false⟩
  | some img =>
    let cond := jsStartsWith img.githubImageUrl RAWPREFIX
      && ! jsStartsWith img.githubImageUrl PENDING
    let repo' := if cond then (deleteImage repo img.githubImageUrl).2 else repo
    ⟨⟨200, "Image deleted successfully"⟩, removeImage db imageId, repo', cond⟩

/-- The prompt enhancement of the generate route: prepend the trigger
word unless the prompt already contains it, case-insensitively. -/
def enhancedPrompt (triggerWord prompt : String) : String :=
  if jsIncludes (jsToLower prompt) (jsToLower triggerWord) then prompt
  else triggerWord ++ " " ++ prompt

/-- One iteration of the generate route's save loop.  `item` is the
pair of the Replicate output URL and the outcome of the immediate
GitHub upload: on success the created record wraps the durable URL with
the `PENDING_REVIEW:` marker; when the upload threw, the catch block
still creates the record, wrapping the raw ephemeral URL instead.  The
function is total: no exception escapes the loop body. -/
def saveGeneratedImage (db : DB) (avatarId : Nat) (prompt : String)
    (item : String × Except String String) : DB :=
  let url := match item.2 with
    | .ok uploadUrl => PENDING ++ uploadUrl
    | .error _ => PENDING ++ item.1
  { db with
    images := db.images ++ [⟨db.nextId, avatarId, prompt, url⟩],
    nextId := db.nextId + 1 }

/-- Result of `POST /api/images/generate` (after a successful Replicate
call: the save loop plus the 200 response). -/
structure GenerateResult where
  res : RouteStatus
  db : DB
deriving Repr, DecidableEq

/-- The whole save loop of the generate route. -/
def generateFold (avatarId : Nat) (prompt : String)
    (items : List (String × Except String String)) (db : DB) : DB :=
  items.foldl (fun d item => saveGeneratedImage d avatarId prompt item) db

/-- The generate route from the Replicate output onward: enhance the
prompt, run the save loop over every output URL with its upload
outcome, and answer 200.  Upload failures degrade to the ephemeral URL
but never fail the request. -/
def generateRoute (db : DB) (avatarId : Nat) (triggerWord prompt : String)
    (items : List (String × Except String String)) : GenerateResult :=
  ⟨⟨200, "Images generated successfully - ready for review"⟩,
    generateFold avatarId (enhancedPrompt triggerWord prompt) items db⟩

/-! ## Workflow operations as a transition system -/

/-- One workflow operation on the shared database/blob-repository
state. -/
inductive Op where
  | generate (avatarId : Nat) (triggerWord prompt : String)
      (items : List (String × Except String String))
  | like (avatarIds : List Nat) (imageId : Nat)
  | dislike (avatarIds : List Nat) (imageId : Nat)
  | download (avatarIds : List Nat) (imageId : Nat)
  | deleteImg (avatarIds : List Nat) (imageId : Nat)

/-- Apply one operation to the database and blob-repository state. -/
def applyOp (s : DB × Repo) : Op → DB × Repo
  | .generate avatarId trigger prompt items =>
    ((generateRoute s.1 avatarId trigger prompt items).db, s.2)
  | .like avatarIds imageId => ((likeRoute s.1 avatarIds imageId).db, s.2)
  | .dislike avatarIds imageId =>
    let r := dislikeRoute s.1 s.2 avatarIds imageId
    (r.db, r.repo)
  | .download avatarIds imageId => ((downloadRoute s.1 avatarIds imageId).db, s.2)
  | .deleteImg avatarIds imageId =>
    let r := deleteRoute s.1 s.2 avatarIds imageId
    (r.db, r.repo)

/-- Apply a sequence of operations in order. -/
def applyOps (s : DB × Repo) (ops : List Op) : DB × Repo :=
  ops.foldl applyOp s

/-- Well-formedness of a URL field: either the pending marker wrapping
a source URL that is not itself marked, or a bare URL without the
marker. -/
def WFUrl (url : String) : Prop :=
  (jsStartsWith url PENDING = true ∧ jsStartsWith (stripPending url) PENDING = false)
  ∨ jsStartsWith url PENDING = false

/-- Every record of the database has a well-formed URL field. -/
def WFdb (db : DB) : Prop :=
  ∀ img ∈ db.images, WFUrl img.githubImageUrl

instance decWFUrl (url : String) : Decidable (WFUrl url) := by
  unfold WFUrl
  infer_instance

instance decWFdb (db : DB) : Decidable (WFdb db) := by
  unfold WFdb
  infer_instance

/-- Autoincrement discipline: every stored record id is below the next
id the sequence will hand out. -/
def IdsOK (db : DB) : Prop :=
  ∀ img ∈ db.images, img.id < db.nextId

instance decIdsOK (db : DB) : Decidable (IdsOK db) := by
  unfold IdsOK
  infer_instance

/-- Payload discipline of an operation: a generate item carries a
Replicate output URL and, on upload success, a raw-content URL; neither
kind of URL starts with the pending marker. -/
def OpWF : Op → Prop
  | .generate _ _ _ items =>
    ∀ item ∈ items, jsStartsWith item.1 PENDING = false ∧
      ∀ v, item.2 = Except.ok v → jsStartsWith v PENDING = false
  | _ => True

/-- A sample durable raw-content URL. -/
def sampleRawUrl : String := "https://raw.githubusercontent.com/o/r/main/avatars/ava/f.jpg"

/-- A sample ephemeral Replicate output URL. -/
def sampleEphemeralUrl : String := "https://replicate.delivery/pbxt/abc/out-0.webp"

/-- A sample avatar row. -/
def sampleAvatar : Avatar := ⟨1, "Ava", "zara"⟩

/-- A database holding one staged record wrapping a durable URL. -/
def stagedDB : DB := ⟨[⟨1, 1, "zara at the beach", PENDING ++ sampleRawUrl⟩], [sampleAvatar], 2⟩

/-- A database holding one staged record wrapping the ephemeral
fallback URL (the degraded generate path). -/
def fallbackDB : DB := ⟨[⟨1, 1, "zara at the beach", PENDING ++ sampleEphemeralUrl⟩], [sampleAvatar], 2⟩

/-- A database holding one published record. -/
def publishedDB : DB := ⟨[⟨1, 1, "zara at the beach", sampleRawUrl⟩], [sampleAvatar], 2⟩

/-! ## Lemmas about the string primitives -/

theorem isPrefixOf_append_self : ∀ (p t : List Char), p.isPrefixOf (p ++ t) = true
  | [], _ => by simp [List.isPrefixOf]
  | a :: as, t => by simp [List.isPrefixOf, isPrefixOf_append_self as t]

theorem isPrefixOf_eq_true_iff (p s : List Char) :
    p.isPrefixOf s = true ↔ ∃ t, s = p ++ t := by
  induction p generalizing s with
  | nil => simp [List.isPrefixOf]
  | cons a as ih =>
    cases s with
    | nil => simp [List.isPrefixOf]
    | cons b bs =>
      simp only [List.isPrefixOf, Bool.and_eq_true, beq_iff_eq, ih,
        List.cons_append, List.cons.injEq]
      constructor
      · rintro ⟨rfl, t, rfl⟩
        exact ⟨t, rfl, rfl⟩
      · rintro ⟨t, rfl, rfl⟩
        exact ⟨rfl, t, rfl⟩

theorem replaceFirstList_of_isPrefixOf (pat repl s : List Char)
    (h : pat.isPrefixOf s = true) :
    replaceFirstList pat repl s = repl ++ s.drop pat.length := by
  cases s with
  | nil => simp [replaceFirstList, h]
  | cons x xs => simp [replaceFirstList, h]

theorem replaceFirstList_append_self (pat repl rest : List Char) :
    replaceFirstList pat repl (pat ++ rest) = repl ++ rest := by
  rw [replaceFirstList_of_isPrefixOf _ _ _ (isPrefixOf_append_self pat rest)]
  simp

theorem jsStartsWith_iff (s pre : String) :
    jsStartsWith s pre = true ↔ ∃ t : String, s = pre ++ t := by
  unfold jsStartsWith
  rw [isPrefixOf_eq_true_iff]
  constructor
  · rintro ⟨t, ht⟩
    refine ⟨⟨t⟩, String.ext ?_⟩
    simpa [String.data_append] using ht
  · rintro ⟨t, rfl⟩
    exact ⟨t.data, by simp [String.data_append]⟩

theorem jsStartsWith_append (pre t : String) : jsStartsWith (pre ++ t) pre = true :=
  (jsStartsWith_iff _ _).mpr ⟨t, rfl⟩

theorem stripPending_append (u : String) : stripPending (PENDING ++ u) = u := by
  unfold stripPending jsReplaceFirst
  refine String.ext ?_
  simp [String.data_append, replaceFirstList_append_self]

theorem eq_append_strip_of_staged (url : String)
    (h : jsStartsWith url PENDING = true) :
    ∃ t : String, url = PENDING ++ t ∧ stripPending url = t := by
  obtain ⟨t, rfl⟩ := (jsStartsWith_iff _ _).mp h
  exact ⟨t, rfl, stripPending_append t⟩

theorem jsStartsWith_false_of_head_ne (s pre : String) (c d : Char)
    (cs ds : List Char) (hs : s.data = c :: cs) (hp : pre.data = d :: ds)
    (hne : (d == c) = false) :
    jsStartsWith s pre = false := by
  unfold jsStartsWith
  rw [hs, hp]
  simp [List.isPrefixOf, hne]

theorem not_raw_of_pending (s : String) (h : jsStartsWith s PENDING = true) :
    jsStartsWith s RAWPREFIX = false := by
  obtain ⟨t, rfl, _⟩ := eq_append_strip_of_staged s h
  refine jsStartsWith_false_of_head_ne _ _ 'P'
    ('h') ("ENDING_REVIEW:".data ++ t.data) "ttps://raw.githubusercontent.com/".data
    ?_ rfl (by decide)
  simp [PENDING, String.data_append]

theorem not_pending_of_raw (s : String) (h : jsStartsWith s RAWPREFIX = true) :
    jsStartsWith s PENDING = false := by
  obtain ⟨t, rfl⟩ := (jsStartsWith_iff _ _).mp h
  refine jsStartsWith_false_of_head_ne _ _ 'h'
    ('P') ("ttps://raw.githubusercontent.com/".data ++ t.data) "ENDING_REVIEW:".data
    ?_ rfl (by decide)
  simp [RAWPREFIX, String.data_append]

/-! ## Lemmas about split and join -/

theorem splitChar_ne_nil (c : Char) (s : List Char) : splitChar c s ≠ [] := by
  cases s with
  | nil => simp [splitChar]
  | cons x xs =>
    by_cases h : x = c
    · simp [splitChar, h]
    · simp only [splitChar, if_neg h]
      cases splitChar c xs <;> simp

theorem splitChar_eq_cons (c : Char) (s : List Char) :
    ∃ y ys, splitChar c s = y :: ys := by
  rcases h : splitChar c s with _ | ⟨y, ys⟩
  · exact absurd h (splitChar_ne_nil c s)
  · exact ⟨y, ys, rfl⟩

theorem splitChar_cons_of_ne (c x : Char) (xs : List Char) (h : ¬ x = c)
    (y : List Char) (ys : List (List Char)) (hsp : splitChar c xs = y :: ys) :
    splitChar c (x :: xs) = (x :: y) :: ys := by
  simp only [splitChar, if_neg h, hsp]

theorem splitChar_append (c : Char) (a b : List Char) :
    splitChar c (a ++ c :: b) = splitChar c a ++ splitChar c b := by
  induction a with
  | nil => simp [splitChar]
  | cons x xs ih =>
    by_cases h : x = c
    · subst h
      simp [splitChar, ih]
    · obtain ⟨y, ys, hy⟩ := splitChar_eq_cons c (xs ++ c :: b)
      rw [hy] at ih
      obtain ⟨z, zs, hz⟩ := splitChar_eq_cons c xs
      rw [hz] at ih
      rw [List.cons_append,
        splitChar_cons_of_ne c x (xs ++ c :: b) h y ys hy,
        splitChar_cons_of_ne c x xs h z zs hz]
      cases ih
      simp

theorem splitChar_of_forall_ne (c : Char) (s : List Char)
    (h : ∀ x ∈ s, x ≠ c) : splitChar c s = [s] := by
  induction s with
  | nil => rfl
  | cons x xs ih =>
    have hx : ¬ x = c := h x (by simp)
    have hxs := ih (fun y hy => h y (by simp [hy]))
    rw [splitChar_cons_of_ne c x xs hx xs [] hxs]

theorem joinChar_splitChar (c : Char) (s : List Char) :
    joinChar c (splitChar c s) = s := by
  induction s with
  | nil => rfl
  | cons x xs ih =>
    obtain ⟨y, ys, hy⟩ := splitChar_eq_cons c xs
    by_cases h : x = c
    · subst h
      rw [show splitChar x (x :: xs) = [] :: splitChar x xs by
        simp [splitChar], hy]
      rw [hy] at ih
      simpa [joinChar] using ih
    · rw [splitChar_cons_of_ne c x xs h y ys hy]
      rw [hy] at ih
      cases ys with
      | nil => simpa [joinChar] using congrArg (x :: ·) ih
      | cons z zs =>
        simp only [joinChar] at ih ⊢
        simp [← ih]

theorem splitChar_not_mem (c : Char) (s : List Char) :
    ∀ l ∈ splitChar c s, c ∉ l := by
  induction s with
  | nil =>
    intro l hl
    simp only [splitChar, List.mem_singleton] at hl
    simp [hl]
  | cons x xs ih =>
    by_cases h : x = c
    · subst h
      intro l hl
      rw [show splitChar x (x :: xs) = [] :: splitChar x xs by simp [splitChar]] at hl
      rcases List.mem_cons.mp hl with rfl | hl
      · simp
      · exact ih l hl
    · obtain ⟨y, ys, hy⟩ := splitChar_eq_cons c xs
      rw [splitChar_cons_of_ne c x xs h y ys hy]
      intro l hl
      rcases List.mem_cons.mp hl with rfl | hl
      · have hcy : c ∉ y := ih y (by rw [hy]; simp)
        simp only [List.mem_cons]
        rintro (rfl | hc)
        · exact h rfl
        · exact hcy hc
      · exact ih l (by rw [hy]; simp [hl])

/-! ## Round-trip lemmas for the blob-storage adapter -/

theorem jsSplit_not_mem (s : String) (c : Char) :
    ∀ part ∈ jsSplit s c, c ∉ part.data := by
  intro part hp
  unfold jsSplit at hp
  obtain ⟨l, hl, rfl⟩ := List.mem_map.mp hp
  exact splitChar_not_mem c s.data l hl

theorem mkStorage_some (repoPath : String) (cfg : StorageConfig)
    (h : mkStorage repoPath = some cfg) :
    ('/' ∉ cfg.owner.data) ∧ ('/' ∉ cfg.repo.data) ∧ cfg.branch = "main" := by
  unfold mkStorage at h
  rcases hsp : jsSplit repoPath '/' with _ | ⟨o, rest⟩
  · rw [hsp] at h
    cases h
  · rcases rest with _ | ⟨r, rest'⟩
    · rw [hsp] at h
      cases h
    · rw [hsp] at h
      have h' : (if o = "" ∨ r = "" then none
          else some (⟨o, r, "main"⟩ : StorageConfig)) = some cfg := h
      by_cases hor : o = "" ∨ r = ""
      · rw [if_pos hor] at h'
        cases h'
      · rw [if_neg hor] at h'
        injection h' with h'
        subst h'
        refine ⟨?_, ?_, rfl⟩
        · exact jsSplit_not_mem repoPath '/' o (by rw [hsp]; simp)
        · exact jsSplit_not_mem repoPath '/' r (by rw [hsp]; simp)

theorem getFileInfo_eq (repo : Repo) (path : String) :
    getFileInfo repo path = decide (path ∈ repo) := by
  simp [getFileInfo]

theorem derivePath_rawUrl (cfg : StorageConfig) (path : String)
    (ho : '/' ∉ cfg.owner.data) (hr : '/' ∉ cfg.repo.data)
    (hb : '/' ∉ cfg.branch.data) :
    derivePath (rawUrl cfg path) = path := by
  have hdata : (rawUrl cfg path).data
      = RAWPREFIX.data ++ (cfg.owner.data ++ '/' ::
          (cfg.repo.data ++ '/' :: (cfg.branch.data ++ '/' :: path.data))) := by
    simp [rawUrl, String.data_append]
  have hstrip : (jsReplaceFirst (rawUrl cfg path) RAWPREFIX "").data
      = cfg.owner.data ++ '/' ::
          (cfg.repo.data ++ '/' :: (cfg.branch.data ++ '/' :: path.data)) := by
    show (replaceFirstList RAWPREFIX.data "".data (rawUrl cfg path).data) = _
    rw [hdata]
    simpa using replaceFirstList_append_self RAWPREFIX.data [] _
  have hsplit : splitChar '/' (jsReplaceFirst (rawUrl cfg path) RAWPREFIX "").data
      = [cfg.owner.data] ++ [cfg.repo.data] ++ [cfg.branch.data]
          ++ splitChar '/' path.data := by
    rw [hstrip, splitChar_append, splitChar_append, splitChar_append,
      splitChar_of_forall_ne '/' cfg.owner.data (fun x hx he => ho (he ▸ hx)),
      splitChar_of_forall_ne '/' cfg.repo.data (fun x hx he => hr (he ▸ hx)),
      splitChar_of_forall_ne '/' cfg.branch.data (fun x hx he => hb (he ▸ hx))]
    simp
  show jsJoin '/' ((jsSplit (jsReplaceFirst (rawUrl cfg path) RAWPREFIX "") '/').drop 3) = path
  unfold jsSplit jsJoin
  rw [hsplit]
  refine String.ext ?_
  simp only [List.map_map, List.drop_succ_cons, List.drop_nil, List.drop_zero,
    List.map_cons, List.append_assoc, List.cons_append, List.nil_append]
  rw [show (String.data ∘ String.mk) = id from rfl, List.map_id, joinChar_splitChar]

theorem deleteImage_removes (repo : Repo) (url : String) :
    derivePath url ∉ (deleteImage repo url).2 := by
  by_cases h : derivePath url ∈ repo <;>
    simp [deleteImage, getFileInfo, h, List.mem_filter]

theorem deleteImage_not_found (repo : Repo) (url : String)
    (h : derivePath url ∉ repo) :
    deleteImage repo url = ((true, "File not found (already deleted)"), repo) := by
  simp [deleteImage, getFileInfo, h]

/-! ## Route-level helper lemmas -/

theorem findImage_eq_some (db : DB) (avatarIds : List Nat) (imageId : Nat)
    (img : ImageRecord) (h : findImage db avatarIds imageId = some img) :
    img ∈ db.images ∧ img.id = imageId := by
  unfold findImage at h
  refine ⟨List.mem_of_find?_eq_some h, ?_⟩
  have hp := List.find?_some h
  simp only [decide_eq_true_eq] at hp
  exact hp.1

theorem mem_updateImageUrl (db : DB) (imageId : Nat) (url : String)
    (img : ImageRecord) (h : img ∈ (updateImageUrl db imageId url).images) :
    (img ∈ db.images ∧ img.id ≠ imageId) ∨
    (∃ img0 ∈ db.images, img0.id = imageId ∧
      img = { img0 with githubImageUrl := url }) := by
  unfold updateImageUrl at h
  simp only [List.mem_map] at h
  obtain ⟨a, ha, hfa⟩ := h
  by_cases hid : a.id = imageId
  · right
    exact ⟨a, ha, hid, by rw [← hfa, if_pos hid]⟩
  · left
    rw [← hfa, if_neg hid]
    exact ⟨ha, hid⟩

theorem mem_removeImage (db : DB) (imageId : Nat) (img : ImageRecord)
    (h : img ∈ (removeImage db imageId).images) :
    img ∈ db.images ∧ img.id ≠ imageId := by
  unfold removeImage at h
  simp only [List.mem_filter, decide_eq_true_eq] at h
  exact h

theorem saveGeneratedImage_spec (db : DB) (aid : Nat) (p : String)
    (item : String × Except String String) :
    (saveGeneratedImage db aid p item).images
      = db.images ++ [⟨db.nextId, aid, p,
          PENDING ++ (match item.2 with | .ok v => v | .error _ => item.1)⟩]
    ∧ (saveGeneratedImage db aid p item).nextId = db.nextId + 1 := by
  obtain ⟨u, out⟩ := item
  cases out <;> simp [saveGeneratedImage]

theorem generateFold_nextId (aid : Nat) (p : String) :
    ∀ (items : List (String × Except String String)) (db : DB),
      db.nextId ≤ (generateFold aid p items db).nextId := by
  intro items
  induction items with
  | nil => intro db; simp [generateFold]
  | cons item rest ih =>
    intro db
    have h1 := (saveGeneratedImage_spec db aid p item).2
    have h2 := ih (saveGeneratedImage db aid p item)
    simp only [generateFold, List.foldl_cons] at h2 ⊢
    omega

theorem generateFold_mono (aid : Nat) (p : String) :
    ∀ (items : List (String × Except String String)) (db : DB)
      (img : ImageRecord), img ∈ db.images →
      img ∈ (generateFold aid p items db).images := by
  intro items
  induction items with
  | nil => intro db img h; simpa [generateFold] using h
  | cons item rest ih =>
    intro db img h
    simp only [generateFold, List.foldl_cons] at ih ⊢
    refine ih _ img ?_
    rw [(saveGeneratedImage_spec db aid p item).1]
    exact List.mem_append_left _ h

theorem generateFold_mem (aid : Nat) (p : String) :
    ∀ (items : List (String × Except String String)) (db : DB)
      (img : ImageRecord), img ∈ (generateFold aid p items db).images →
      img ∈ db.images ∨
        (db.nextId ≤ img.id ∧ img.avatarId = aid ∧ img.prompt = p ∧
          ∃ item ∈ items, img.githubImageUrl
            = PENDING ++ (match item.2 with | .ok v => v | .error _ => item.1)) := by
  intro items
  induction items with
  | nil => intro db img h; exact Or.inl (by simpa [generateFold] using h)
  | cons item rest ih =>
    intro db img h
    simp only [generateFold, List.foldl_cons] at h
    rcases ih (saveGeneratedImage db aid p item) img h with hin | ⟨hle, haid, hp, it, hit, hurl⟩
    · rw [(saveGeneratedImage_spec db aid p item).1] at hin
      rcases List.mem_append.mp hin with hin | hin
      · exact Or.inl hin
      · simp only [List.mem_singleton] at hin
        subst hin
        exact Or.inr ⟨Nat.le_refl _, rfl, rfl, item, by simp⟩
    · rw [(saveGeneratedImage_spec db aid p item).2] at hle
      exact Or.inr ⟨by omega, haid, hp, it, by simp [hit], hurl⟩

theorem generateFold_error_mem (aid : Nat) (p : String) :
    ∀ (items : List (String × Except String String)) (db : DB)
      (u e : String), (u, Except.error e) ∈ items →
      ∃ img ∈ (generateFold aid p items db).images,
        img.githubImageUrl = PENDING ++ u ∧ img.avatarId = aid ∧ img.prompt = p := by
  intro items
  induction items with
  | nil => intro db u e h; simp at h
  | cons item rest ih =>
    intro db u e h
    rcases List.mem_cons.mp h with rfl | h
    · refine ⟨⟨db.nextId, aid, p, PENDING ++ u⟩, ?_, rfl, rfl, rfl⟩
      simp only [generateFold, List.foldl_cons]
      refine generateFold_mono aid p rest _ _ ?_
      rw [(saveGeneratedImage_spec db aid p (u, Except.error e)).1]
      simp
    · obtain ⟨img, hm, hrest⟩ := ih (saveGeneratedImage db aid p item) u e h
      exact ⟨img, by simpa [generateFold] using hm, hrest⟩

/-! ## Lemmas about the upload retry loop -/

theorem retryGo_write_bounds (o : Nat → AttemptOutcome) (m : Nat) :
    ∀ n a, m + 1 - a = n →
      ∀ k, GhEvent.tryWrite k ∈ (retryGo o m a).1 → a ≤ k ∧ k ≤ m := by
  intro n
  induction n with
  | zero =>
    intro a ha k hk
    rw [retryGo, dif_pos (by omega)] at hk
    simp at hk
  | succ n ih =>
    intro a ha k hk
    by_cases hma : m < a
    · rw [retryGo, dif_pos hma] at hk
      simp at hk
    · rw [retryGo, dif_neg hma] at hk
      rcases ho : o a with _ | _ | _ <;> rw [ho] at hk <;> dsimp only at hk
      · simp at hk
        omega
      · by_cases ham : a = m
        · rw [if_pos ham] at hk
          simp at hk
          omega
        · rw [if_neg ham] at hk
          simp at hk
          rcases hk with rfl | hk
          · omega
          · have := ih (a + 1) (by omega) k hk
            omega
      · simp at hk
        omega

theorem retryGo_readInfo_self (o : Nat → AttemptOutcome) (m a : Nat)
    (h : a ≤ m) : GhEvent.readInfo a ∈ (retryGo o m a).1 := by
  rw [retryGo, dif_neg (by omega)]
  rcases ho : o a with _ | _ | _ <;> dsimp only
  · simp
  · by_cases ham : a = m
    · rw [if_pos ham]
      simp
    · rw [if_neg ham]
      simp
  · simp

theorem retryGo_retry_shape (o : Nat → AttemptOutcome) (m : Nat) :
    ∀ n a, m + 1 - a = n →
      ∀ k, a ≤ k → GhEvent.tryWrite (k + 1) ∈ (retryGo o m a).1 →
        o k = .conflict ∧ GhEvent.sleep (k * 1000) ∈ (retryGo o m a).1 ∧
        GhEvent.readInfo (k + 1) ∈ (retryGo o m a).1 := by
  intro n
  induction n with
  | zero =>
    intro a ha k hak hk
    rw [retryGo, dif_pos (by omega)] at hk
    simp at hk
  | succ n ih =>
    intro a ha k hak hk
    by_cases hma : m < a
    · rw [retryGo, dif_pos hma] at hk
      simp at hk
    · rw [retryGo, dif_neg hma]
      rw [retryGo, dif_neg hma] at hk
      rcases ho : o a with _ | _ | _ <;> (try rw [ho] at hk) <;>
        dsimp only at hk ⊢
      · simp at hk
        omega
      · by_cases ham : a = m
        · rw [if_pos ham] at hk ⊢
          simp at hk
          omega
        · rw [if_neg ham] at hk ⊢
          simp only [List.cons_append, List.nil_append, List.mem_cons] at hk
          rcases hk with hk | hk | hk | hk
          · simp at hk
          · simp at hk
            omega
          · simp at hk
          · rcases Nat.lt_or_ge a k with hlt | hge
            · have hrec := ih (a + 1) (by omega) k (by omega) hk
              refine ⟨hrec.1, ?_, ?_⟩ <;> simp [hrec.2.1, hrec.2.2]
            · have hka : k = a := by omega
              subst hka
              refine ⟨ho, by simp, ?_⟩
              have hri : GhEvent.readInfo (k + 1) ∈ (retryGo o m (k + 1)).1 :=
                retryGo_readInfo_self o m (k + 1) (by omega)
              simp [hri]
      · simp at hk
        omega

theorem retryGo_error_result (o : Nat → AttemptOutcome) (m : Nat) :
    ∀ n a, m + 1 - a = n → a ≤ m →
      (∀ k, a ≤ k → k ≤ m → o k ≠ .success) →
      ∃ err, (retryGo o m a).2 = .error err := by
  intro n
  induction n with
  | zero =>
    intro a ha hle _
    omega
  | succ n ih =>
    intro a ha hle hfail
    rw [retryGo, dif_neg (by omega)]
    rcases ho : o a with _ | _ | _ <;> dsimp only
    · exact absurd ho (hfail a (Nat.le_refl a) hle)
    · by_cases ham : a = m
      · rw [if_pos ham]
        exact ⟨.conflict, rfl⟩
      · rw [if_neg ham]
        have := ih (a + 1) (by omega) (by omega)
          (fun k hk1 hk2 => hfail k (by omega) hk2)
        simpa using this
    · exact ⟨.other, rfl⟩

theorem uploadRetry_allConflict (o : Nat → AttemptOutcome)
    (h1 : o 1 = .conflict) (h2 : o 2 = .conflict) (h3 : o 3 = .conflict) :
    uploadImageWithRetry o 3 =
      ([.readInfo 1, .tryWrite 1, .sleep 1000, .readInfo 2, .tryWrite 2,
        .sleep 2000, .readInfo 3, .tryWrite 3], .error .conflict) := by
  rw [uploadImageWithRetry, retryGo, retryGo, retryGo]
  simp [h1, h2, h3]

theorem uploadRetry_otherFirst (o : Nat → AttemptOutcome)
    (h1 : o 1 = .other) :
    uploadImageWithRetry o 3 = ([.readInfo 1, .tryWrite 1], .error .other) := by
  rw [uploadImageWithRetry, retryGo]
  simp [h1]

theorem generateFold_idsOK (aid : Nat) (p : String) :
    ∀ (items : List (String × Except String String)) (db : DB),
      IdsOK db → IdsOK (generateFold aid p items db) := by
  intro items
  induction items with
  | nil => intro db h; simpa [generateFold] using h
  | cons item rest ih =>
    intro db h
    simp only [generateFold, List.foldl_cons] at ih ⊢
    apply ih
    intro img hm
    rw [(saveGeneratedImage_spec db aid p item).1] at hm
    rw [(saveGeneratedImage_spec db aid p item).2]
    rcases List.mem_append.mp hm with h1 | h1
    · have := h img h1
      omega
    · simp only [List.mem_singleton] at h1
      subst h1
      simp

theorem find?_update_aux (imageId : Nat) (avatarIds : List Nat) (url : String) :
    ∀ l : List ImageRecord,
      List.find? (fun img => decide (img.id = imageId ∧ avatarIds.contains img.avatarId))
          (l.map (fun img => if img.id = imageId
            then { img with githubImageUrl := url } else img))
        = (List.find? (fun img => decide (img.id = imageId ∧ avatarIds.contains img.avatarId)) l).map
            (fun img => if img.id = imageId
              then { img with githubImageUrl := url } else img) := by
  intro l
  induction l with
  | nil => rfl
  | cons a rest ih =>
    by_cases hid : a.id = imageId
    · by_cases hc : a.avatarId ∈ avatarIds
      · rw [List.map_cons,
          List.find?_cons_of_pos _ (by simp [hid, hc]),
          List.find?_cons_of_pos _ (by simp [hid, hc])]
        simp [hid]
      · rw [List.map_cons,
          List.find?_cons_of_neg _ (by simp [hid, hc]),
          List.find?_cons_of_neg _ (by simp [hid, hc]), ih]
    · rw [List.map_cons,
        List.find?_cons_of_neg _ (by simp [hid]),
        List.find?_cons_of_neg _ (by simp [hid]), ih]

theorem findImage_updateImageUrl (db : DB) (avatarIds : List Nat)
    (imageId : Nat) (url : String) :
    findImage (updateImageUrl db imageId url) avatarIds imageId
      = (findImage db avatarIds imageId).map
          (fun img => if img.id = imageId
            then { img with githubImageUrl := url } else img) := by
  unfold findImage updateImageUrl
  exact find?_update_aux imageId avatarIds url db.images

/-- Case analysis on the database component of the like route. -/
theorem likeRoute_db_cases (db : DB) (avatarIds : List Nat) (imageId : Nat) :
    (likeRoute db avatarIds imageId).db = db ∨
    ∃ img, findImage db avatarIds imageId = some img ∧ Staged img = true ∧
      img ∈ db.images ∧ img.id = imageId ∧
      (likeRoute db avatarIds imageId).db
        = updateImageUrl db imageId (stripPending img.githubImageUrl) := by
  unfold likeRoute
  rcases hf : findImage db avatarIds imageId with _ | img
  · exact Or.inl rfl
  · by_cases hs : Staged img
    · right
      obtain ⟨hm, hid⟩ := findImage_eq_some db avatarIds imageId img hf
      exact ⟨img, rfl, hs, hm, hid, by simp [hs]⟩
    · left
      simp [hs]

/-- Case analysis on the database component of the download route. -/
theorem downloadRoute_db_cases (db : DB) (avatarIds : List Nat) (imageId : Nat) :
    (downloadRoute db avatarIds imageId).db = db ∨
    ∃ img, findImage db avatarIds imageId = some img ∧ Staged img = true ∧
      img ∈ db.images ∧ img.id = imageId ∧
      (downloadRoute db avatarIds imageId).db
        = updateImageUrl db imageId (stripPending img.githubImageUrl) := by
  unfold downloadRoute
  rcases hf : findImage db avatarIds imageId with _ | img
  · exact Or.inl rfl
  · by_cases hs : Staged img
    · right
      obtain ⟨hm, hid⟩ := findImage_eq_some db avatarIds imageId img hf
      exact ⟨img, rfl, hs, hm, hid, by simp [hs]⟩
    · left
      simp [hs]

/-- Case analysis on the database component of the dislike route. -/
theorem dislikeRoute_db_cases (db : DB) (repo : Repo) (avatarIds : List Nat)
    (imageId : Nat) :
    (dislikeRoute db repo avatarIds imageId).db = db ∨
    (dislikeRoute db repo avatarIds imageId).db = removeImage db imageId := by
  unfold dislikeRoute
  rcases findImage db avatarIds imageId with _ | img
  · exact Or.inl rfl
  · by_cases hs : Staged img
    · exact Or.inr (by simp [hs])
    · exact Or.inl (by simp [hs])

/-- Case analysis on the database component of the delete route. -/
theorem deleteRoute_db_cases (db : DB) (repo : Repo) (avatarIds : List Nat)
    (imageId : Nat) :
    (deleteRoute db repo avatarIds imageId).db = db ∨
    (deleteRoute db repo avatarIds imageId).db = removeImage db imageId := by
  unfold deleteRoute
  rcases findImage db avatarIds imageId with _ | img
  · exact Or.inl rfl
  · exact Or.inr rfl

/-! ## Preservation lemmas for the workflow invariants -/

theorem WFUrl_stripped (url : String) (hwf : WFUrl url)
    (hs : jsStartsWith url PENDING = true) : WFUrl (stripPending url) := by
  rcases hwf with ⟨_, h2⟩ | h
  · exact Or.inr h2
  · rw [h] at hs
    cases hs

theorem updateImageUrl_WF (db : DB) (imageId : Nat) (url : String)
    (hwf : WFdb db) (hu : WFUrl url) : WFdb (updateImageUrl db imageId url) := by
  intro img hm
  rcases mem_updateImageUrl db imageId url img hm with ⟨h1, _⟩ | ⟨img0, h0, _, rfl⟩
  · exact hwf img h1
  · exact hu

theorem removeImage_WF (db : DB) (imageId : Nat) (hwf : WFdb db) :
    WFdb (removeImage db imageId) := by
  intro img hm
  exact hwf img (mem_removeImage db imageId img hm).1

theorem applyOp_WF (op : Op) (s : DB × Repo) (hop : OpWF op)
    (hwf : WFdb s.1) : WFdb (applyOp s op).1 := by
  obtain ⟨db, repo⟩ := s
  cases op with
  | generate aid tw p items =>
    intro img hm
    simp only [applyOp, generateRoute] at hm
    rcases generateFold_mem aid (enhancedPrompt tw p) items db img hm with
      h1 | ⟨_, _, _, item, hit, hurl⟩
    · exact hwf img h1
    · have hitem := hop item hit
      left
      refine ⟨by rw [hurl]; exact jsStartsWith_append _ _, ?_⟩
      rw [hurl, stripPending_append]
      rcases item with ⟨u, out⟩
      cases out with
      | ok v => exact hitem.2 v rfl
      | error e => exact hitem.1
  | like ids imageId =>
    intro img hm
    simp only [applyOp] at hm
    rcases likeRoute_db_cases db ids imageId with hdb | ⟨img0, _, hs0, hm0, _, hdb⟩ <;>
      rw [hdb] at hm
    · exact hwf img hm
    · exact updateImageUrl_WF db imageId _ hwf
        (WFUrl_stripped _ (hwf img0 hm0) hs0) img hm
  | download ids imageId =>
    intro img hm
    simp only [applyOp] at hm
    rcases downloadRoute_db_cases db ids imageId with hdb | ⟨img0, _, hs0, hm0, _, hdb⟩ <;>
      rw [hdb] at hm
    · exact hwf img hm
    · exact updateImageUrl_WF db imageId _ hwf
        (WFUrl_stripped _ (hwf img0 hm0) hs0) img hm
  | dislike ids imageId =>
    intro img hm
    simp only [applyOp] at hm
    rcases dislikeRoute_db_cases db repo ids imageId with hdb | hdb <;> rw [hdb] at hm
    · exact hwf img hm
    · exact removeImage_WF db imageId hwf img hm
  | deleteImg ids imageId =>
    intro img hm
    simp only [applyOp] at hm
    rcases deleteRoute_db_cases db repo ids imageId with hdb | hdb <;> rw [hdb] at hm
    · exact hwf img hm
    · exact removeImage_WF db imageId hwf img hm

theorem applyOp_step (op : Op) (s : DB × Repo) (i : Nat)
    (hids : IdsOK s.1) (hlt : i < s.1.nextId) :
    IdsOK (applyOp s op).1 ∧ i < (applyOp s op).1.nextId ∧
    ((∀ img ∈ s.1.images, img.id = i → Staged img = false) →
      ∀ img ∈ (applyOp s op).1.images, img.id = i → Staged img = false) ∧
    ((∀ img ∈ s.1.images, img.id ≠ i) →
      ∀ img ∈ (applyOp s op).1.images, img.id ≠ i) := by
  obtain ⟨db, repo⟩ := s
  cases op with
  | generate aid tw p items =>
    simp only [applyOp, generateRoute]
    refine ⟨generateFold_idsOK aid _ items db hids, ?_, ?_, ?_⟩
    · have := generateFold_nextId aid (enhancedPrompt tw p) items db
      simp only at hlt
      omega
    · intro hP img hm hi
      rcases generateFold_mem aid (enhancedPrompt tw p) items db img hm with
        h1 | ⟨hge, _, _, _, _, _⟩
      · exact hP img h1 hi
      · simp only at hlt
        omega
    · intro hQ img hm
      rcases generateFold_mem aid (enhancedPrompt tw p) items db img hm with
        h1 | ⟨hge, _, _, _, _, _⟩
      · exact hQ img h1
      · simp only at hlt
        omega
  | like ids imageId =>
    simp only [applyOp]
    rcases likeRoute_db_cases db ids imageId with hdb | ⟨img0, _, hs0, hm0, hid0, hdb⟩ <;>
      rw [hdb]
    · exact ⟨hids, hlt, fun hP => hP, fun hQ => hQ⟩
    · refine ⟨?_, hlt, ?_, ?_⟩
      · intro img hm
        rcases mem_updateImageUrl db imageId _ img hm with ⟨h1, _⟩ | ⟨img1, h1, _, rfl⟩
        · exact hids img h1
        · exact hids img1 h1
      · intro hP img hm hi
        have hne : imageId ≠ i := by
          intro he
          have := hP img0 hm0 (by omega)
          rw [this] at hs0
          cases hs0
        rcases mem_updateImageUrl db imageId _ img hm with ⟨h1, _⟩ | ⟨img1, h1, hid1, rfl⟩
        · exact hP img h1 hi
        · exact absurd hi (by simpa [hid1] using hne)
      · intro hQ img hm
        rcases mem_updateImageUrl db imageId _ img hm with ⟨h1, _⟩ | ⟨img1, h1, _, rfl⟩
        · exact hQ img h1
        · exact hQ img1 h1
  | download ids imageId =>
    simp only [applyOp]
    rcases downloadRoute_db_cases db ids imageId with hdb | ⟨img0, _, hs0, hm0, hid0, hdb⟩ <;>
      rw [hdb]
    · exact ⟨hids, hlt, fun hP => hP, fun hQ => hQ⟩
    · refine ⟨?_, hlt, ?_, ?_⟩
      · intro img hm
        rcases mem_updateImageUrl db imageId _ img hm with ⟨h1, _⟩ | ⟨img1, h1, _, rfl⟩
        · exact hids img h1
        · exact hids img1 h1
      · intro hP img hm hi
        have hne : imageId ≠ i := by
          intro he
          have := hP img0 hm0 (by omega)
          rw [this] at hs0
          cases hs0
        rcases mem_updateImageUrl db imageId _ img hm with ⟨h1, _⟩ | ⟨img1, h1, hid1, rfl⟩
        · exact hP img h1 hi
        · exact absurd hi (by simpa [hid1] using hne)
      · intro hQ img hm
        rcases mem_updateImageUrl db imageId _ img hm with ⟨h1, _⟩ | ⟨img1, h1, _, rfl⟩
        · exact hQ img h1
        · exact hQ img1 h1
  | dislike ids imageId =>
    simp only [applyOp]
    rcases dislikeRoute_db_cases db repo ids imageId with hdb | hdb <;> rw [hdb]
    · exact ⟨hids, hlt, fun hP => hP, fun hQ => hQ⟩
    · refine ⟨?_, hlt, ?_, ?_⟩
      · intro img hm
        exact hids img (mem_removeImage db imageId img hm).1
      · intro hP img hm hi
        exact hP img (mem_removeImage db imageId img hm).1 hi
      · intro hQ img hm
        exact hQ img (mem_removeImage db imageId img hm).1
  | deleteImg ids imageId =>
    simp only [applyOp]
    rcases deleteRoute_db_cases db repo ids imageId with hdb | hdb <;> rw [hdb]
    · exact ⟨hids, hlt, fun hP => hP, fun hQ => hQ⟩
    · refine ⟨?_, hlt, ?_, ?_⟩
      · intro img hm
        exact hids img (mem_removeImage db imageId img hm).1
      · intro hP img hm hi
        exact hP img (mem_removeImage db imageId img hm).1 hi
      · intro hQ img hm
        exact hQ img (mem_removeImage db imageId img hm).1

theorem applyOps_step (ops : List Op) :
    ∀ (s : DB × Repo) (i : Nat), IdsOK s.1 → i < s.1.nextId →
      ((∀ img ∈ s.1.images, img.id = i → Staged img = false) →
        ∀ img ∈ (applyOps s ops).1.images, img.id = i → Staged img = false) ∧
      ((∀ img ∈ s.1.images, img.id ≠ i) →
        ∀ img ∈ (applyOps s ops).1.images, img.id ≠ i) := by
  induction ops with
  | nil => intro s i _ _; exact ⟨fun h => h, fun h => h⟩
  | cons op rest ih =>
    intro s i hids hlt
    obtain ⟨hids', hlt', hP, hQ⟩ := applyOp_step op s i hids hlt
    obtain ⟨hP', hQ'⟩ := ih (applyOp s op) i hids' hlt'
    exact ⟨fun h => hP' (hP h), fun h => hQ' (hQ h)⟩

theorem dislikeRoute_success (db : DB) (repo : Repo) (avatarIds : List Nat)
    (imageId : Nat)
    (h : (dislikeRoute db repo avatarIds imageId).res.status = 200) :
    (dislikeRoute db repo avatarIds imageId).db = removeImage db imageId := by
  unfold dislikeRoute at h ⊢
  rcases hf : findImage db avatarIds imageId with _ | img <;> rw [hf] at h
  · simp at h
  · by_cases hs : Staged img
    · simp [hs]
    · simp [hs] at h

/-! ## Claim theorems -/

/-- C7: the enhanced prompt sent to the generation API equals the
original prompt verbatim when the prompt already contains the avatar's
trigger word as a case-insensitive substring; otherwise it is exactly
the trigger word, a space, and the original prompt. -/
theorem claim7_enhancedPrompt (triggerWord prompt : String) :
    (jsIncludes (jsToLower prompt) (jsToLower triggerWord) = true →
      enhancedPrompt triggerWord prompt = prompt) ∧
    (jsIncludes (jsToLower prompt) (jsToLower triggerWord) = false →
      enhancedPrompt triggerWord prompt = triggerWord ++ " " ++ prompt) := by
  constructor <;> intro h <;> simp [enhancedPrompt, h]

/-- Witness for C7 at the spec's own example: trigger `zara`. -/
theorem claim7_witness :
    jsIncludes (jsToLower "Zara at the beach") (jsToLower "zara") = true ∧
    enhancedPrompt "zara" "Zara at the beach" = "Zara at the beach" ∧
    jsIncludes (jsToLower "at the beach") (jsToLower "zara") = false ∧
    enhancedPrompt "zara" "at the beach" = "zara" ++ " " ++ "at the beach" :=
  ⟨by decide,
   (claim7_enhancedPrompt "zara" "Zara at the beach").1 (by decide),
   by decide,
   (claim7_enhancedPrompt "zara" "at the beach").2 (by decide)⟩

/-- C4: when the GitHub upload of a generated image fails, the generate
workflow still creates the record, staged, wrapping the raw ephemeral
Replicate URL, and the request as a whole still answers 200 — the save
loop is total, so no exception escapes from the upload failure. -/
theorem claim4_generate_degrades (db : DB) (avatarId : Nat)
    (triggerWord prompt : String)
    (items : List (String × Except String String)) (u e : String)
    (hmem : (u, Except.error e) ∈ items) :
    (generateRoute db avatarId triggerWord prompt items).res.status = 200 ∧
    (∃ img ∈ (generateRoute db avatarId triggerWord prompt items).db.images,
      img.githubImageUrl = PENDING ++ u ∧ Staged img = true ∧
      img.avatarId = avatarId ∧ img.prompt = enhancedPrompt triggerWord prompt) ∧
    (generateRoute db avatarId triggerWord prompt [(u, Except.error e)]).db.images
      = db.images ++ [⟨db.nextId, avatarId,
          enhancedPrompt triggerWord prompt, PENDING ++ u⟩] := by
  refine ⟨rfl, ?_, ?_⟩
  · obtain ⟨img, hm, hurl, haid, hp⟩ :=
      generateFold_error_mem avatarId (enhancedPrompt triggerWord prompt) items db u e hmem
    exact ⟨img, hm, hurl, by simp [Staged, hurl, jsStartsWith_append], haid, hp⟩
  · show (generateFold avatarId (enhancedPrompt triggerWord prompt)
      [(u, Except.error e)] db).images = _
    simp only [generateFold, List.foldl_cons, List.foldl_nil]
    exact (saveGeneratedImage_spec db avatarId _ (u, Except.error e)).1

/-- Witness for C4: a one-image generate whose upload failed. -/
theorem claim4_witness :
    (generateRoute publishedDB 1 "zara" "at the beach"
        [(sampleEphemeralUrl, Except.error "boom")]).res.status = 200 ∧
    (generateRoute publishedDB 1 "zara" "at the beach"
        [(sampleEphemeralUrl, Except.error "boom")]).db.images
      = publishedDB.images ++ [⟨publishedDB.nextId, 1,
          enhancedPrompt "zara" "at the beach", PENDING ++ sampleEphemeralUrl⟩] :=
  ⟨(claim4_generate_degrades publishedDB 1 "zara" "at the beach"
      [(sampleEphemeralUrl, Except.error "boom")] sampleEphemeralUrl "boom"
      (by simp)).1,
   (claim4_generate_degrades publishedDB 1 "zara" "at the beach"
      [(sampleEphemeralUrl, Except.error "boom")] sampleEphemeralUrl "boom"
      (by simp)).2.2⟩

/-- C9: blob deletion is idempotent: a delete whose derived path is
absent returns success without changing the repository, a second
delete of the same URL succeeds and leaves the state of the first, and
delete always reports success on these paths. -/
theorem claim9_delete_idempotent (repo : Repo) (url : String) :
    (derivePath url ∉ repo →
      deleteImage repo url = ((true, "File not found (already deleted)"), repo)) ∧
    deleteImage (deleteImage repo url).2 url
      = ((true, "File not found (already deleted)"), (deleteImage repo url).2) ∧
    (deleteImage repo url).1.1 = true := by
  refine ⟨?_, ?_, ?_⟩
  · intro h
    simp [deleteImage, getFileInfo, h]
  · exact deleteImage_not_found _ _ (deleteImage_removes repo url)
  · by_cases h : derivePath url ∈ repo <;> simp [deleteImage, getFileInfo, h]

/-- Witness for C9: deleting from an empty repository. -/
theorem claim9_witness :
    deleteImage [] sampleRawUrl = ((true, "File not found (already deleted)"), []) :=
  (claim9_delete_idempotent [] sampleRawUrl).1 (by simp)

/-- C8: delete re-derives from the public URL exactly the path upload
wrote, and after upload followed by delete the file no longer exists at
that path. -/
theorem claim8_roundtrip (repoPath : String) (cfg : StorageConfig)
    (hcfg : mkStorage repoPath = some cfg) (md5hex : String → String)
    (ts rand : String) (repo : Repo) (prompt avatarName : String) :
    derivePath (uploadImage cfg md5hex ts rand repo prompt avatarName).1
      = uploadPath md5hex ts rand prompt avatarName ∧
    getFileInfo
      (deleteImage (uploadImage cfg md5hex ts rand repo prompt avatarName).2
        (uploadImage cfg md5hex ts rand repo prompt avatarName).1).2
      (uploadPath md5hex ts rand prompt avatarName) = false := by
  obtain ⟨ho, hr, hb⟩ := mkStorage_some repoPath cfg hcfg
  have hderive : derivePath (uploadImage cfg md5hex ts rand repo prompt avatarName).1
      = uploadPath md5hex ts rand prompt avatarName :=
    derivePath_rawUrl cfg _ ho hr (by rw [hb]; decide)
  refine ⟨hderive, ?_⟩
  have hrm := deleteImage_removes
    (uploadImage cfg md5hex ts rand repo prompt avatarName).2
    (uploadImage cfg md5hex ts rand repo prompt avatarName).1
  rw [hderive] at hrm
  simp [getFileInfo, hrm]

/-- Witness for C8 at a concrete configuration and inputs. -/
theorem claim8_witness :
    derivePath (uploadImage ⟨"o", "r", "main"⟩ (fun _ => "d41d8cd9")
        "2025-01-01T00:00:00.000Z" "a1b2c3d4" [] "beach" "Ava").1
      = uploadPath (fun _ => "d41d8cd9") "2025-01-01T00:00:00.000Z" "a1b2c3d4"
          "beach" "Ava" ∧
    getFileInfo
      (deleteImage (uploadImage ⟨"o", "r", "main"⟩ (fun _ => "d41d8cd9")
          "2025-01-01T00:00:00.000Z" "a1b2c3d4" [] "beach" "Ava").2
        (uploadImage ⟨"o", "r", "main"⟩ (fun _ => "d41d8cd9")
          "2025-01-01T00:00:00.000Z" "a1b2c3d4" [] "beach" "Ava").1).2
      (uploadPath (fun _ => "d41d8cd9") "2025-01-01T00:00:00.000Z" "a1b2c3d4"
        "beach" "Ava") = false :=
  claim8_roundtrip "o/r" ⟨"o", "r", "main"⟩ (by decide) (fun _ => "d41d8cd9")
    "2025-01-01T00:00:00.000Z" "a1b2c3d4" [] "beach" "Ava"

/-- C6: the upload retry loop makes at most 3 attempts; an attempt
`k + 1` exists only when attempt `k` hit the conflict signal, with a
sleep of `k * 1000` milliseconds and a fresh file-info (content-hash)
read before the retry; when no attempt succeeds the error propagates;
three conflicts exhaust the budget and propagate the conflict error;
and a non-conflict error on the first attempt is never retried. -/
theorem claim6_uploadRetry (o : Nat → AttemptOutcome) :
    (∀ k, GhEvent.tryWrite k ∈ (uploadImageWithRetry o 3).1 → 1 ≤ k ∧ k ≤ 3) ∧
    (∀ k, 1 ≤ k → GhEvent.tryWrite (k + 1) ∈ (uploadImageWithRetry o 3).1 →
      o k = .conflict ∧ GhEvent.sleep (k * 1000) ∈ (uploadImageWithRetry o 3).1 ∧
      GhEvent.readInfo (k + 1) ∈ (uploadImageWithRetry o 3).1) ∧
    ((∀ k, 1 ≤ k → k ≤ 3 → o k ≠ .success) →
      ∃ err, (uploadImageWithRetry o 3).2 = .error err) ∧
    (o 1 = .conflict → o 2 = .conflict → o 3 = .conflict →
      uploadImageWithRetry o 3 =
        ([.readInfo 1, .tryWrite 1, .sleep 1000, .readInfo 2, .tryWrite 2,
          .sleep 2000, .readInfo 3, .tryWrite 3], .error .conflict)) ∧
    (o 1 = .other →
      uploadImageWithRetry o 3 = ([.readInfo 1, .tryWrite 1], .error .other)) := by
  refine ⟨?_, ?_, ?_, uploadRetry_allConflict o, uploadRetry_otherFirst o⟩
  · exact fun k hk => retryGo_write_bounds o 3 3 1 rfl k hk
  · exact fun k h1 hk => retryGo_retry_shape o 3 3 1 rfl k h1 hk
  · exact fun hfail => retryGo_error_result o 3 3 1 rfl (by omega) hfail

/-- Witness for C6: the constant-conflict outcome exhausts the budget. -/
theorem claim6_witness :
    uploadImageWithRetry (fun _ => AttemptOutcome.conflict) 3 =
      ([.readInfo 1, .tryWrite 1, .sleep 1000, .readInfo 2, .tryWrite 2,
        .sleep 2000, .readInfo 3, .tryWrite 3], .error .conflict) :=
  (claim6_uploadRetry (fun _ => AttemptOutcome.conflict)).2.2.2.1 rfl rfl rfl

/-- C1: like on a record whose URL field lacks the pending marker
fails with 400 `Image is not pending review` and leaves the database
unchanged; consequently, on a database with well-formed URL fields, a
second like on the same id after a successful one fails with 400 and
changes nothing. -/
theorem claim1_like_guard (db : DB) (avatarIds : List Nat) (imageId : Nat) :
    (∀ img, findImage db avatarIds imageId = some img → Staged img = false →
      likeRoute db avatarIds imageId
        = ⟨⟨400, "Image is not pending review"⟩, db⟩) ∧
    (WFdb db → (likeRoute db avatarIds imageId).res.status = 200 →
      likeRoute (likeRoute db avatarIds imageId).db avatarIds imageId
        = ⟨⟨400, "Image is not pending review"⟩,
            (likeRoute db avatarIds imageId).db⟩) := by
  constructor
  · intro img hf hs
    unfold likeRoute
    rw [hf]
    simp [hs]
  · intro hwf h200
    rcases hf : findImage db avatarIds imageId with _ | img
    · unfold likeRoute at h200
      rw [hf] at h200
      simp at h200
    · by_cases hs : Staged img
      · have hdb : (likeRoute db avatarIds imageId).db
            = updateImageUrl db imageId (stripPending img.githubImageUrl) := by
          unfold likeRoute
          rw [hf]
          simp [hs]
        obtain ⟨hm, hid⟩ := findImage_eq_some db avatarIds imageId img hf
        have hfind2 : findImage
            (updateImageUrl db imageId (stripPending img.githubImageUrl))
            avatarIds imageId
            = some { img with githubImageUrl := stripPending img.githubImageUrl } := by
          rw [findImage_updateImageUrl, hf]
          simp [hid]
        have hns : Staged { img with
            githubImageUrl := stripPending img.githubImageUrl } = false := by
          rcases hwf img hm with ⟨_, h2⟩ | h1
          · exact h2
          · exact absurd hs (by simp [Staged, h1])
        rw [hdb]
        unfold likeRoute
        rw [hfind2]
        simp [hns]
      · unfold likeRoute at h200
        rw [hf] at h200
        simp [hs] at h200

/-- Witness for C1: a like on a published record fails with 400, and a
second like after a successful one on a staged record fails with 400. -/
theorem claim1_witness :
    likeRoute publishedDB [1] 1
      = ⟨⟨400, "Image is not pending review"⟩, publishedDB⟩ ∧
    likeRoute (likeRoute stagedDB [1] 1).db [1] 1
      = ⟨⟨400, "Image is not pending review"⟩, (likeRoute stagedDB [1] 1).db⟩ :=
  ⟨(claim1_like_guard publishedDB [1] 1).1
      ⟨1, 1, "zara at the beach", sampleRawUrl⟩ (by decide) (by decide),
   (claim1_like_guard stagedDB [1] 1).2 (by decide) (by decide)⟩

/-- C2 counterexample: approving the fallback-staged record (reachable
per C4 when the upload failed during generate) succeeds and leaves a
record whose URL field is a bare non-durable (ephemeral) URL — neither
marker-wrapped nor a durable raw-content URL — refuting `never
neither` and `no operation can produce a bare ephemeral URL`. -/
theorem claim2_counterexample :
    (likeRoute fallbackDB [1] 1).res.status = 200 ∧
    (likeRoute fallbackDB [1] 1).db.images
      = [⟨1, 1, "zara at the beach", sampleEphemeralUrl⟩] ∧
    jsStartsWith sampleEphemeralUrl PENDING = false ∧
    jsStartsWith sampleEphemeralUrl RAWPREFIX = false := by
  refine ⟨by decide, by decide, by decide, by decide⟩

/-- C2 (amended): at any state reachable by workflow operations with
well-formed payloads from a well-formed state, every record's URL field
is either the pending marker wrapping a source URL that is not itself
marked, or a bare URL without the marker — never both and never
neither — but a bare URL is not necessarily durable. -/
theorem claim2_url_wellformed (ops : List Op) (s : DB × Repo)
    (hops : ∀ op ∈ ops, OpWF op) (hwf : WFdb s.1) :
    WFdb (applyOps s ops).1 := by
  induction ops generalizing s with
  | nil => simpa [applyOps] using hwf
  | cons op rest ih =>
    simp only [applyOps, List.foldl_cons] at ih ⊢
    exact ih (applyOp s op) (fun o ho => hops o (by simp [ho]))
      (applyOp_WF op s (hops op (by simp)) hwf)

/-- Witness for C2 (amended): the ephemeral URL left by approving the
fallback-staged record is still well-formed (bare, unmarked). -/
theorem claim2_witness :
    WFUrl sampleEphemeralUrl :=
  claim2_url_wellformed [Op.like [1] 1] (fallbackDB, [])
    (fun op hop => by
      simp only [List.mem_singleton] at hop
      subst hop
      exact trivial)
    (by decide)
    ⟨1, 1, "zara at the beach", sampleEphemeralUrl⟩ (by decide)

/-- C3 counterexample: download on a published (non-staged) record is
not rejected: it answers 200 and returns the stored URL — refuting
`only legal from STAGED`. -/
theorem claim3_counterexample :
    (downloadRoute publishedDB [1] 1).res.status = 200 ∧
    (downloadRoute publishedDB [1] 1).db = publishedDB ∧
    (downloadRoute publishedDB [1] 1).downloadUrl = some sampleRawUrl ∧
    Staged ⟨1, 1, "zara at the beach", sampleRawUrl⟩ = false := by
  refine ⟨by decide, by decide, by decide, by decide⟩

/-- C3 (amended): download on a staged record performs exactly the same
database transition as approve (marker stripped, same URL) and
additionally returns the resolved URL and a `<fullName>-<id>.jpg`
filename; download on a non-staged record is not rejected: it answers
200 with the stored URL and leaves the database unchanged. -/
theorem claim3_download (db : DB) (avatarIds : List Nat) (imageId : Nat) :
    (∀ img, findImage db avatarIds imageId = some img → Staged img = true →
      downloadRoute db avatarIds imageId
        = ⟨⟨200, "Image ready for download"⟩,
            some (stripPending img.githubImageUrl),
            some (avatarFullName db img.avatarId ++ "-" ++ toString img.id ++ ".jpg"),
            (likeRoute db avatarIds imageId).db⟩) ∧
    (∀ img, findImage db avatarIds imageId = some img → Staged img = false →
      downloadRoute db avatarIds imageId
        = ⟨⟨200, "Image ready for download"⟩, some img.githubImageUrl,
            some (avatarFullName db img.avatarId ++ "-" ++ toString img.id ++ ".jpg"),
            db⟩) := by
  constructor
  · intro img hf hs
    unfold downloadRoute likeRoute
    rw [hf]
    simp [hs]
  · intro img hf hs
    unfold downloadRoute
    rw [hf]
    simp [hs]

/-- Witness for C3: download on the staged sample database. -/
theorem claim3_witness :
    downloadRoute stagedDB [1] 1
      = ⟨⟨200, "Image ready for download"⟩,
          some (stripPending (PENDING ++ sampleRawUrl)),
          some (avatarFullName stagedDB 1 ++ "-" ++ toString (1 : Nat) ++ ".jpg"),
          (likeRoute stagedDB [1] 1).db⟩ :=
  (claim3_download stagedDB [1] 1).1
    ⟨1, 1, "zara at the beach", PENDING ++ sampleRawUrl⟩ (by decide) (by decide)

/-- C5: under any sequence of workflow operations, a record that is not
staged never becomes staged again, a record id that is absent never
reappears, and a successful dislike deletes the record. -/
theorem claim5_terminal (ops : List Op) (db : DB) (repo : Repo) (i : Nat)
    (hids : IdsOK db) (hlt : i < db.nextId) :
    ((∀ img ∈ db.images, img.id = i → Staged img = false) →
      ∀ img ∈ (applyOps (db, repo) ops).1.images, img.id = i → Staged img = false) ∧
    ((∀ img ∈ db.images, img.id ≠ i) →
      ∀ img ∈ (applyOps (db, repo) ops).1.images, img.id ≠ i) ∧
    (∀ avatarIds, (dislikeRoute db repo avatarIds i).res.status = 200 →
      ∀ img ∈ (dislikeRoute db repo avatarIds i).db.images, img.id ≠ i) := by
  obtain ⟨hP, hQ⟩ := applyOps_step ops (db, repo) i hids hlt
  refine ⟨hP, hQ, ?_⟩
  intro avatarIds h200 img hm
  rw [dislikeRoute_success db repo avatarIds i h200] at hm
  exact (mem_removeImage db i img hm).2

/-- Witness for C5: a like aimed at the published record leaves it
unstaged. -/
theorem claim5_witness :
    Staged ⟨1, 1, "zara at the beach", sampleRawUrl⟩ = false :=
  (claim5_terminal [Op.like [1] 1] publishedDB [] 1 (by decide) (by decide)).1
    (by decide) ⟨1, 1, "zara at the beach", sampleRawUrl⟩ (by decide) rfl

/-- C10: direct delete of a staged record answers 200 and deletes the
database row, but never calls blob-storage deletion — the guard
requires the URL field itself to start with the raw-content prefix,
which a pending-marked URL never does — so the repository state is
untouched and the durable blob stays in storage. -/
theorem claim10_delete_staged (db : DB) (repo : Repo) (avatarIds : List Nat)
    (imageId : Nat) (img : ImageRecord)
    (hf : findImage db avatarIds imageId = some img)
    (hs : Staged img = true) :
    deleteRoute db repo avatarIds imageId
      = ⟨⟨200, "Image deleted successfully"⟩, removeImage db imageId, repo, false⟩ ∧
    (∀ img' ∈ (deleteRoute db repo avatarIds imageId).db.images,
      img'.id ≠ imageId) := by
  have hraw : jsStartsWith img.githubImageUrl RAWPREFIX = false :=
    not_raw_of_pending _ hs
  have heq : deleteRoute db repo avatarIds imageId
      = ⟨⟨200, "Image deleted successfully"⟩, removeImage db imageId, repo, false⟩ := by
    unfold deleteRoute
    rw [hf]
    simp [hraw]
  refine ⟨heq, ?_⟩
  intro img' hm
  rw [heq] at hm
  exact (mem_removeImage db imageId img' hm).2

/-- Witness for C10: deleting the staged sample record leaves the blob
repository untouched. -/
theorem claim10_witness :
    deleteRoute stagedDB ["avatars/ava/f.jpg"] [1] 1
      = ⟨⟨200, "Image deleted successfully"⟩, removeImage stagedDB 1,
          ["avatars/ava/f.jpg"], false⟩ :=
  (claim10_delete_staged stagedDB ["avatars/ava/f.jpg"] [1] 1
    ⟨1, 1, "zara at the beach", PENDING ++ sampleRawUrl⟩ (by decide) (by decide)).1

end AvatarSpec
